import Mathlib

/-!
Shallow embedding of `src/elemac.py` (ELEMAC aquarium controller client).

Protocol strings are modelled as `List Char` (Python `str` is a sequence of
characters; all strings involved are ASCII).  Machine integers do not occur:
Python integers are unbounded, so `Nat`/`Int` model them exactly.  Device
reads are abstracted by an oracle `ram : Nat → Nat → Nat` giving the decoded
result of `read_ram(address, size)`; real numbers produced by Python's true
division `/` are modelled as `ℚ`.
-/

namespace Elemac

/-! ### Hex parsing: model of Python `int(s, 16)` (CPython 3.4 semantics)

`int(s, 16)` strips leading/trailing whitespace, accepts an optional single
sign, an optional `0x`/`0X` marker, and then requires one or more hex digits
(underscore grouping did not exist in Python 3.4).  Anything else raises
`ValueError`, modelled as `none`. -/

/-- Value of one hexadecimal digit character, `none` for non-hex characters. -/
def hexDigitVal (c : Char) : Option Nat :=
  if '0' ≤ c ∧ c ≤ '9' then some (c.toNat - '0'.toNat)
  else if 'a' ≤ c ∧ c ≤ 'f' then some (c.toNat - 'a'.toNat + 10)
  else if 'A' ≤ c ∧ c ≤ 'F' then some (c.toNat - 'A'.toNat + 10)
  else none

/-- Accumulating hex parse over a digit string; fails on the first
character that is not a hexadecimal digit. -/
def parseHexCore : List Char → Nat → Option Nat
  | [], acc => some acc
  | c :: rest, acc =>
    match hexDigitVal c with
    | some d => parseHexCore rest (acc * 16 + d)
    | none => none

/-- Parse a non-empty string of hex digits; the empty string fails
(as `int('', 16)` raises `ValueError`). -/
def parseHexNat (s : List Char) : Option Nat :=
  if s = [] then none else parseHexCore s 0

/-- The whitespace characters stripped by `int()` on ASCII input:
CPython's `_Py_ascii_whitespace` marks `0x09`-`0x0d`, `0x1c`-`0x1f`
(the FILE/GROUP/RECORD/UNIT separators) and `0x20` as whitespace. -/
def isPySpace (c : Char) : Bool :=
  c = ' ' ∨ c = '\t' ∨ c = '\n' ∨ c = '\x0b' ∨ c = '\x0c' ∨ c = '\r'
    ∨ c = '\x1c' ∨ c = '\x1d' ∨ c = '\x1e' ∨ c = '\x1f'

/-- Strip leading and trailing whitespace. -/
def pyStripWs (s : List Char) : List Char :=
  ((s.dropWhile isPySpace).reverse.dropWhile isPySpace).reverse

/-- Consume an optional single leading sign. -/
def pyStripSign (t : List Char) : Int × List Char :=
  match t with
  | c :: r => if c = '+' then (1, r) else if c = '-' then (-1, r) else (1, t)
  | [] => (1, [])

/-- Consume an optional `0x`/`0X` base marker. -/
def pyStrip0x (t : List Char) : List Char :=
  match t with
  | c0 :: c1 :: r => if c0 = '0' ∧ (c1 = 'x' ∨ c1 = 'X') then r else t
  | _ => t

/-- Model of Python `int(s, 16)`: `none` = `ValueError`. -/
def pyIntHex (s : List Char) : Option Int :=
  let t := pyStripWs s
  let st := pyStripSign t
  let t2 := pyStrip0x st.2
  (parseHexNat t2).map (fun n => st.1 * (n : Int))

/-! ### `ElemacDevice.read_ram` (src/elemac.py lines 108-118) -/

/-- Model of `[response[i:i+2] for i in range(0, len(response), 2)]`:
split into chunks of 2 characters, the last chunk possibly shorter. -/
def chunk2 : List Char → List (List Char)
  | [] => []
  | [a] => [[a]]
  | a :: b :: rest => [a, b] :: chunk2 rest

/-- The payload decoding of `read_ram`:
`int(''.join(reversed(chunks)), 16)`, `none` when `int` raises. -/
def decodePayload (response : List Char) : Option Int :=
  pyIntHex ((chunk2 response).reverse).flatten

/-- Model of Python `format(n, 'x')`: lowercase hexadecimal rendering,
`"0"` for zero, no padding.  `Nat.digits 16 n` is the little-endian digit
list, so the rendering is its reverse mapped through `Nat.digitChar`
(which yields `'0'`-`'9'`, `'a'`-`'f'`). -/
def natToHex (n : Nat) : List Char :=
  if n = 0 then ['0'] else ((Nat.digits 16 n).map Nat.digitChar).reverse

/-- Model of Python `'{:3x}'.format(n)`: the hex rendering right-aligned in
a field of width 3; the fill character of numeric alignment is a SPACE. -/
def format3x (n : Nat) : List Char :=
  List.replicate (3 - (natToHex n).length) ' ' ++ natToHex n

/-- The request string built by `read_ram`:
`'r' + str(size - 1) + '{:3x}'.format(address)`. -/
def readRamRequest (address size : Nat) : List Char :=
  'r' :: (toString (size - 1)).data ++ format3x address

/-! ### `ElemacDevice` measurement tables (src/elemac.py lines 26-52) -/

def MEAS_BASE : Nat := 1864

def MEAS_STRUCT_SIZE : Nat := 17

/-- One entry of `MEAS_FIELD_DATA`: `(offset, size, divisive, name)`. -/
structure FieldSpec where
  offset : Nat
  size : Nat
  divisive : Bool
  name : String
deriving DecidableEq

/-- The ten field descriptors, in source order. -/
def MEAS_FIELD_DATA : List (String × FieldSpec) :=
  [("flags", ⟨0, 1, false, "Flags"⟩),
   ("type", ⟨1, 1, false, "Type"⟩),
   ("measured", ⟨2, 2, true, "Measured"⟩),
   ("alarm_high", ⟨4, 2, true, "Alarm High"⟩),
   ("day_high", ⟨6, 2, true, "Day High"⟩),
   ("night_high", ⟨8, 2, true, "Night High"⟩),
   ("hysteresis", ⟨10, 1, true, "Hysteresis"⟩),
   ("night_low", ⟨11, 2, true, "Night Low"⟩),
   ("day_low", ⟨13, 2, true, "Day Low"⟩),
   ("alarm_low", ⟨15, 2, true, "Alarm Low"⟩)]

/-- One entry of `MEAS_BANKS_DATA`: `(bank_no, name, unit, value_divisor)`. -/
structure BankSpec where
  bank : Nat
  name : String
  unit : String
  divisor : Nat
deriving DecidableEq

/-- The eight bank descriptors, in source order.  (The measurement units
are irrelevant to the verified claims; we keep the ASCII part.) -/
def MEAS_BANKS_DATA : List (String × BankSpec) :=
  [("temp1", ⟨0, "Temperature 1", "C", 10⟩),
   ("temp2", ⟨1, "Temperature 2", "C", 10⟩),
   ("temp3", ⟨2, "Temperature 3", "C", 10⟩),
   ("temp4", ⟨3, "Temperature 4", "C", 10⟩),
   ("ph1", ⟨4, "pH 1", "", 100⟩),
   ("ph2", ⟨5, "pH 2", "", 100⟩),
   ("humid", ⟨6, "Humidity", "%", 10⟩),
   ("redox", ⟨7, "Redox", "mV", 1⟩)]

/-! ### `ElemacDevice.read_meas` (lines 120-134)

The device is abstracted by an oracle `ram : Nat → Nat → Nat`:
`ram a s` is the value `read_ram(a, s)` returns (device responses are
well-formed unsigned values, so a `Nat` result). -/

/-- The absolute address read for field `f` of bank `bank`:
`MEAS_BASE + bank * MEAS_STRUCT_SIZE + offset`. -/
def field_addr (bank : Nat) (f : FieldSpec) : Nat :=
  MEAS_BASE + bank * MEAS_STRUCT_SIZE + f.offset

/-- The dict `read_meas` builds.  `vals` is the field-name-to-value mapping
(scaled fields hold `value / divisor` by Python true division, hence `ℚ`);
`available` is the entry `meas['available'] = meas['flags'] & 1`
(an integer in the source; its uses test truthiness, i.e. `≠ 0`). -/
structure MeasRecord where
  vals : List (String × ℚ)
  available : Nat
deriving DecidableEq

/-- Model of `read_meas(bank, divisor)`.  The `'flags'` entry is the raw read of the
field at offset 0, size 1 (non-divisive), so `available` equals that read
masked with 1. -/
def read_meas (ram : Nat → Nat → Nat) (bank divisor : Nat) : MeasRecord :=
  { vals := MEAS_FIELD_DATA.map fun nf =>
      let value := ram (field_addr bank nf.2) nf.2.size
      (nf.1, if nf.2.divisive then (value : ℚ) / (divisor : ℚ) else (value : ℚ))
    available := ram (field_addr bank ⟨0, 1, false, "Flags"⟩) 1 &&& 1 }

/-- Lookup of `meas[key]`; all keys used by the program are present. -/
def MeasRecord.get (m : MeasRecord) (k : String) : ℚ :=
  (m.vals.lookup k).getD 0

/-! ### `ElemacDevice.update_all_measurements` (lines 136-152) -/

/-- Shape of `measurements[code]` after `update_all_measurements`: the bank's
`read_meas` dict together with the attached bank metadata. -/
structure BankEntry where
  meas : MeasRecord
  bank : Nat
  name : String
  unit : String
  divisor : Nat
deriving DecidableEq

def mkBankEntry (ram : Nat → Nat → Nat) (cb : String × BankSpec) : BankEntry :=
  { meas := read_meas ram cb.2.bank cb.2.divisor
    bank := cb.2.bank
    name := cb.2.name
    unit := cb.2.unit
    divisor := cb.2.divisor }

/-- The `self.measurements` mapping (as an association list in table
order; the final states of the claims are insensitive to dict iteration
order). -/
def measurements (ram : Nat → Nat → Nat) : List (String × BankEntry) :=
  MEAS_BANKS_DATA.map fun cb => (cb.1, mkBankEntry ram cb)

/-- Value of `self.available_measurements` after `update_all_measurements`: the
entries whose record is available (`if meas['available']:`), as a list
sorted by code (`sorted(items, key=lambda x: x[0])`). -/
def available_measurements (ram : Nat → Nat → Nat) : List (String × BankEntry) :=
  ((measurements ram).filter fun ce => ce.2.meas.available ≠ 0).mergeSort
    fun a b => a.1 ≤ b.1

/-! ### Timestamps and the dedup files (lines 177-206)

`datetime.datetime` instants are modelled by seconds-since-epoch plus a
microsecond part (`strptime`/`isoformat` preserve exactly this data for
the fixed `%Y-%m-%dT%H:%M:%S.%f` shape; calendar rendering of `sec` is
a bijection we do not spell out).  `datetime.isoformat()` omits the
fractional part entirely when `microsecond == 0`, which is why the
serialized form keeps the fraction as an `Option`. -/

structure Timestamp where
  sec : Int
  usec : Nat
deriving DecidableEq

/-- The instant as rational seconds, for `timedelta` arithmetic. -/
def Timestamp.toQ (t : Timestamp) : ℚ :=
  (t.sec : ℚ) + (t.usec : ℚ) / 1000000

/-- The data content of an ISO-8601 string `YYYY-MM-DDTHH:MM:SS[.ffffff]`:
the fractional-seconds field is present iff `frac = some _`. -/
structure SavedTimestamp where
  sec : Int
  frac : Option Nat
deriving DecidableEq

/-- Model of `datetime.isoformat()`: the fractional part is included iff
`microsecond != 0` (Python documented behaviour). -/
def isoformat (t : Timestamp) : SavedTimestamp :=
  { sec := t.sec, frac := if t.usec = 0 then none else some t.usec }

/-- Model of `datetime.strptime(s, "%Y-%m-%dT%H:%M:%S.%f")`: the format demands the
`.%f` fractional field, so a string without it raises `ValueError`. -/
def strptimeIsoMicro (s : SavedTimestamp) : Option Timestamp :=
  match s.frac with
  | none => none
  | some f => some ⟨s.sec, f⟩

/-- Content of a `last-alert-<channel>` file: either an ISO timestamp
string, or content `strptime` rejects outright. -/
inductive FileContent where
  | stamp (s : SavedTimestamp)
  | garbage
deriving DecidableEq

/-- Model of `file.readline()` followed by `strptime`. -/
def parseTimestampFile : FileContent → Option Timestamp
  | .stamp s => strptimeIsoMicro s
  | .garbage => none

/-- The dedup timestamp files, one per channel name (`none` = the file
does not exist, so `open` raises `FileNotFoundError`). -/
def Store := String → Option FileContent

/-! ### `ElemacController` configuration (`/etc/elemac`) -/

/-- The recognized configuration options.  `none` models an absent key. -/
structure Config where
  alert_dedup_suppression_hours : Option ℚ := none
  email_host : Option String := none
  email_port : Nat := 465
  email_user : Option String := none
  email_password : Option String := none
  email_from : Option String := none
  email_to : Option String := none

/-- Python truthiness of an optional string (`None` and `''` are falsy). -/
def truthy : Option String → Bool
  | none => false
  | some s => ¬s.isEmpty

/-! ### `ElemacController.check_dedup_suppression` (lines 177-199) -/

/-- Returns `true` iff the alert should be suppressed.  `now` is the value
of `datetime.datetime.now()` during the call. -/
def check_dedup_suppression (cfg : Config) (store : Store)
    (dedup_channel : Option String) (now : Timestamp) : Bool :=
  if ¬truthy dedup_channel then false
  else
    match cfg.alert_dedup_suppression_hours with
    | none => false
    | some hours =>
      match store (dedup_channel.getD "") with
      | none => false  -- FileNotFoundError: no dedup data saved
      | some content =>
        match parseTimestampFile content with
        | none => false  -- ValueError: wrong format
        | some last_alert =>
          -- delta < datetime.timedelta(hours=hours)
          decide (now.toQ - last_alert.toQ < hours * 3600)

/-! ### `ElemacController.save_dedup_suppression_state` (lines 201-206) -/

/-- Overwrites the channel's file with `datetime.now().isoformat()`;
a no-op for a falsy channel. -/
def save_dedup_suppression_state (store : Store)
    (dedup_channel : Option String) (now : Timestamp) : Store :=
  if ¬truthy dedup_channel then store
  else fun c =>
    if c = dedup_channel.getD "" then some (.stamp (isoformat now)) else store c

/-! ### `ElemacController.send_alerts` / `send_email_alert` / `send_sms_alert`
(lines 208-262)

The observable behaviour is the sequence of calls made to the delivery
collaborators plus the resulting dedup store.  `smtpFails` says whether the
SMTP interaction inside `send_email_alert`'s `try` block raises; the
`except` clause swallows any such exception (line 257), so the function
always returns normally. -/

inductive Event where
  /-- invocation of the email-delivery path `send_email_alert(summary, details)` -/
  | emailAlertCall (summary details : String)
  /-- a completed `sendmail` on the SMTP collaborator -/
  | smtpSendmail (efrom : String) (toList : List String) (message : String)
  /-- log via `traceback.print_exception` after a swallowed delivery failure -/
  | emailFailureLogged
  /-- invocation of the SMS-delivery path `send_sms_alert(message)` (body is `pass`) -/
  | smsAlertCall (message : String)
deriving DecidableEq

/-- Python `e.strip()` on ASCII (whitespace at both ends removed). -/
def pyStrip (s : String) : String :=
  ⟨pyStripWs s.data⟩

/-- Model of `send_email_alert` (lines 226-258): each missing required option skips
delivery with a diagnostic print; otherwise the SMTP send is attempted and
any exception is caught and logged. -/
def send_email_alert (cfg : Config) (summary details : String)
    (smtpFails : Bool) : List Event :=
  if ¬truthy cfg.email_host then []
  else if ¬truthy cfg.email_user then []
  else if ¬truthy cfg.email_password then []
  else if ¬truthy cfg.email_to then []
  else
    let efrom := cfg.email_from.getD (cfg.email_user.getD "")
    let eto := cfg.email_to.getD ""
    let toList := (eto.splitOn ",").map pyStrip
    let message := "From: " ++ efrom ++ "\nTo: " ++ eto ++ "\nSubject: "
      ++ summary ++ "\n\n" ++ details
    if smtpFails then [.emailFailureLogged]
    else [.smtpSendmail efrom toList message]

/-- Model of `send_sms_alert` (lines 260-262): not implemented yet, body is `pass`. -/
def send_sms_alert (_message : String) : List Event := []

/-- The informational note appended to `details` (lines 216-219). -/
def dedupNote (hours : ℚ) : String :=
  "\nNote that due to alert deduplication subsequent alerts will be "
    ++ "suppressed for the next " ++ toString hours ++ " hours."

/-- Model of `send_alerts(summary, details, brief, dedup_channel)` (lines 208-224):
returns the events performed and the dedup store after the call. -/
def send_alerts (cfg : Config) (store : Store) (now : Timestamp)
    (summary details : String) (brief : Option String)
    (dedup_channel : Option String) (smtpFails : Bool) :
    List Event × Store :=
  let brief := if ¬truthy brief then summary else brief.getD ""
  if check_dedup_suppression cfg store dedup_channel now then ([], store)
  else
    let details :=
      if truthy dedup_channel then
        match cfg.alert_dedup_suppression_hours with
        | some hours => details ++ dedupNote hours
        | none => details
      else details
    (.emailAlertCall summary details :: send_email_alert cfg summary details smtpFails
       ++ .smsAlertCall brief :: send_sms_alert brief,
     save_dedup_suppression_state store dedup_channel now)

/-! ### `ElemacController.check_alarms` (lines 287-311)

`check_alarms` walks the sorted `available_measurements` list and, per
entry, independently raises a high alert (`measured > alarm_high`) and a
low alert (`measured < alarm_low`) by calling
`send_alerts(summary, details, dedup_channel=code)`.  We record the
sequence of those `send_alerts` invocations; summary/details are composed
from the recorded fields (`"ALARM! {name} is too high ({measured})"` etc.),
whose exact text no claim depends on. -/

inductive AlarmKind where
  | high
  | low
deriving DecidableEq

/-- One `send_alerts` invocation made by `check_alarms`. -/
structure AlertCall where
  kind : AlarmKind
  dedup_channel : Option String
  name : String
  measured : ℚ
  threshold : ℚ
deriving DecidableEq

def alarm_calls_for (code : String) (e : BankEntry) : List AlertCall :=
  (if e.meas.get "measured" > e.meas.get "alarm_high" then
     [⟨.high, some code, e.name, e.meas.get "measured", e.meas.get "alarm_high"⟩]
   else [])
  ++ (if e.meas.get "measured" < e.meas.get "alarm_low" then
       [⟨.low, some code, e.name, e.meas.get "measured", e.meas.get "alarm_low"⟩]
     else [])

/-- The `send_alerts` invocations `check_alarms` performs, in order. -/
def check_alarms (ram : Nat → Nat → Nat) : List AlertCall :=
  (available_measurements ram).flatMap fun ce => alarm_calls_for ce.1 ce.2

/-- Spec-side definition (from the claim's words, for comparison with
`decodePayload`): the little-endian interpretation of a payload of
2-hex-digit groups — the i-th group from the left is the i-th least
significant byte, contributing its value times `256 ^ i`. -/
def leValue : List Char → Nat
  | a :: b :: rest =>
    ((hexDigitVal a).getD 0 * 16 + (hexDigitVal b).getD 0) + 256 * leValue rest
  | _ => 0

/-! ### Helper lemmas about hex parsing -/

theorem parseHexCore_append (xs ys : List Char) (acc : Nat) :
    parseHexCore (xs ++ ys) acc =
      (parseHexCore xs acc).bind (fun m => parseHexCore ys m) := by
  induction xs generalizing acc with
  | nil => rfl
  | cons c t ih =>
    simp only [List.cons_append, parseHexCore]
    cases hexDigitVal c with
    | none => rfl
    | some d => exact ih _

theorem parseHexCore_isSome (xs : List Char) (acc : Nat)
    (h : ∀ c ∈ xs, (hexDigitVal c).isSome) : (parseHexCore xs acc).isSome := by
  induction xs generalizing acc with
  | nil => rfl
  | cons c t ih =>
    obtain ⟨d, hd⟩ := Option.isSome_iff_exists.mp (h c (List.mem_cons_self c t))
    simp only [parseHexCore, hd]
    exact ih _ fun c hc => h c (List.mem_cons_of_mem _ hc)

theorem parseHexCore_none (xs : List Char) (acc : Nat) {c : Char}
    (hc : c ∈ xs) (hnone : hexDigitVal c = none) : parseHexCore xs acc = none := by
  induction xs generalizing acc with
  | nil => cases hc
  | cons a t ih =>
    rcases List.mem_cons.mp hc with rfl | hmem
    · simp [parseHexCore, hnone]
    · simp only [parseHexCore]
      cases hexDigitVal a with
      | none => rfl
      | some d => exact ih _ hmem

theorem hexDigitVal_isSome_ne {c : Char} (h : (hexDigitVal c).isSome) :
    isPySpace c = false ∧ c ≠ '+' ∧ c ≠ '-' ∧ c ≠ 'x' ∧ c ≠ 'X' := by
  refine ⟨?_, ?_, ?_, ?_, ?_⟩
  · cases hsp : isPySpace c
    · rfl
    · exfalso
      simp only [isPySpace, decide_eq_true_eq] at hsp
      rcases hsp with rfl | rfl | rfl | rfl | rfl | rfl | rfl | rfl | rfl | rfl <;>
        simp [hexDigitVal] at h
  all_goals (rintro rfl; simp [hexDigitVal] at h)

theorem dropWhile_eq_self_of_not {p : Char → Bool} {l : List Char}
    (h : ∀ c ∈ l, p c = false) : l.dropWhile p = l := by
  cases l with
  | nil => rfl
  | cons a t => simp [List.dropWhile_cons, h a (List.mem_cons_self a t)]

theorem pyStripWs_eq_self {s : List Char}
    (h : ∀ c ∈ s, isPySpace c = false) : pyStripWs s = s := by
  unfold pyStripWs
  rw [dropWhile_eq_self_of_not h,
    dropWhile_eq_self_of_not (fun c hc => h c (List.mem_reverse.mp hc)),
    List.reverse_reverse]

/-- On a string of hex digits, `int(s, 16)` is the plain unsigned hex
parse: no whitespace is stripped, no sign or `0x` marker is consumed. -/
theorem pyIntHex_of_allHex {s : List Char}
    (h : ∀ c ∈ s, (hexDigitVal c).isSome) :
    pyIntHex s = (parseHexNat s).map (fun n => (n : Int)) := by
  have hws : pyStripWs s = s :=
    pyStripWs_eq_self fun c hc => (hexDigitVal_isSome_ne (h c hc)).1
  cases s with
  | nil => rfl
  | cons c r =>
    obtain ⟨-, hplus, hminus, -, -⟩ := hexDigitVal_isSome_ne (h c (List.mem_cons_self c r))
    have hsign : pyStripSign (c :: r) = (1, c :: r) := by
      simp [pyStripSign, hplus, hminus]
    have h0x : pyStrip0x (c :: r) = c :: r := by
      cases r with
      | nil => rfl
      | cons c1 r' =>
        obtain ⟨-, -, -, hx, hX⟩ :=
          hexDigitVal_isSome_ne (h c1 (List.mem_cons_of_mem _ (List.mem_cons_self c1 r')))
        simp [pyStrip0x, hx, hX]
    simp only [pyIntHex, hws, hsign, h0x]
    cases parseHexNat (c :: r) <;> simp

/-! ### Helper lemmas about `chunk2` and payload decoding -/

theorem flatten_chunk2 (s : List Char) : (chunk2 s).flatten = s := by
  induction s using chunk2.induct with
  | case1 => rfl
  | case2 a => rfl
  | case3 a b rest ih => simp [chunk2, ih]

theorem flatten_reverse_perm (l : List (List Char)) :
    l.reverse.flatten.Perm l.flatten := by
  induction l with
  | nil => exact List.Perm.refl _
  | cons x t ih =>
    simp only [List.reverse_cons, List.flatten_append, List.flatten_cons]
    have h1 : (t.reverse.flatten ++ [x].flatten).Perm (t.flatten ++ [x].flatten) :=
      ih.append_right _
    have h2 : (t.flatten ++ [x].flatten).Perm ([x].flatten ++ t.flatten) :=
      List.perm_append_comm
    simpa using h1.trans h2

/-- The string `read_ram` feeds to `int(·, 16)` is a permutation of the
response payload. -/
theorem payload_perm (s : List Char) : ((chunk2 s).reverse.flatten).Perm s := by
  have := flatten_reverse_perm (chunk2 s)
  rwa [flatten_chunk2] at this

theorem parseHexCore_flatten_reverse_chunk2 :
    ∀ s : List Char, s.length % 2 = 0 → (∀ c ∈ s, (hexDigitVal c).isSome) →
      parseHexCore ((chunk2 s).reverse.flatten) 0 = some (leValue s) := by
  intro s
  induction s using chunk2.induct with
  | case1 => intro _ _; rfl
  | case2 a => intro h _; simp at h
  | case3 a b rest ih =>
    intro heven hhex
    obtain ⟨da, hda⟩ :=
      Option.isSome_iff_exists.mp (hhex a (List.mem_cons_self _ _))
    obtain ⟨db, hdb⟩ :=
      Option.isSome_iff_exists.mp
        (hhex b (List.mem_cons_of_mem _ (List.mem_cons_self _ _)))
    have heven' : rest.length % 2 = 0 := by
      simp only [List.length_cons] at heven; omega
    have hhex' : ∀ c ∈ rest, (hexDigitVal c).isSome := fun c hc =>
      hhex c (List.mem_cons_of_mem _ (List.mem_cons_of_mem _ hc))
    have hrest := ih heven' hhex'
    simp only [chunk2, List.reverse_cons, List.flatten_append, List.flatten_cons,
      List.flatten_nil, List.append_nil]
    rw [parseHexCore_append, hrest]
    simp only [Option.some_bind, parseHexCore, hda, hdb, leValue, hda, hdb,
      Option.getD_some, Option.some.injEq]
    ring

/-- On any nonempty even-length payload of hex digits, `read_ram`'s decode
computes the little-endian interpretation. -/
theorem decodePayload_allHex {s : List Char} (hne : s ≠ [])
    (heven : s.length % 2 = 0) (hhex : ∀ c ∈ s, (hexDigitVal c).isSome) :
    decodePayload s = some ((leValue s : Int)) := by
  have hperm := payload_perm s
  have hhexJ : ∀ c ∈ (chunk2 s).reverse.flatten, (hexDigitVal c).isSome :=
    fun c hc => hhex c (hperm.mem_iff.mp hc)
  have hneJ : (chunk2 s).reverse.flatten ≠ [] := by
    intro h0
    apply hne
    have hlen := hperm.length_eq
    rw [h0] at hlen
    exact List.length_eq_zero.mp hlen.symm
  rw [decodePayload, pyIntHex_of_allHex hhexJ, parseHexNat, if_neg hneJ,
    parseHexCore_flatten_reverse_chunk2 s heven hhex]
  rfl

/-! ### Helper lemmas about `natToHex` (request formatting) -/

theorem hexDigitVal_digitChar : ∀ d : Nat, d < 16 →
    hexDigitVal (Nat.digitChar d) = some d := by decide

theorem parseHexCore_reverse_digitChar :
    ∀ (l : List Nat) (acc : Nat), (∀ d ∈ l, d < 16) →
      parseHexCore ((l.map Nat.digitChar).reverse) acc =
        some (acc * 16 ^ l.length + Nat.ofDigits 16 l) := by
  intro l
  induction l with
  | nil => intro acc _; simp [parseHexCore, Nat.ofDigits_nil]
  | cons x t ih =>
    intro acc h
    have hx : x < 16 := h x (List.mem_cons_self _ _)
    simp only [List.map_cons, List.reverse_cons]
    rw [parseHexCore_append, ih acc fun d hd => h d (List.mem_cons_of_mem _ hd)]
    simp only [Option.some_bind, parseHexCore, hexDigitVal_digitChar x hx,
      Nat.ofDigits_cons, List.length_cons, Option.some.injEq]
    ring

theorem parseHexNat_natToHex (n : Nat) : parseHexNat (natToHex n) = some n := by
  by_cases h0 : n = 0
  · subst h0; decide
  · have hlt : ∀ d ∈ Nat.digits 16 n, d < 16 := fun d hd =>
      Nat.digits_lt_base (by norm_num) hd
    have hne : ((Nat.digits 16 n).map Nat.digitChar).reverse ≠ [] := by
      simp [Nat.digits_ne_nil_iff_ne_zero.mpr h0]
    rw [natToHex, if_neg h0, parseHexNat, if_neg hne,
      parseHexCore_reverse_digitChar _ 0 hlt, Nat.ofDigits_digits]
    simp

theorem natToHex_allHex (n : Nat) : ∀ c ∈ natToHex n, (hexDigitVal c).isSome := by
  intro c hc
  by_cases h0 : n = 0
  · subst h0
    simp [natToHex] at hc
    subst hc; decide
  · simp only [natToHex, if_neg h0, List.mem_reverse, List.mem_map] at hc
    obtain ⟨d, hd, rfl⟩ := hc
    rw [hexDigitVal_digitChar d (Nat.digits_lt_base (by norm_num) hd)]
    rfl

/-- The hex rendering used in the request is exact: parsing it back with
`int(·, 16)` recovers the address. -/
theorem pyIntHex_natToHex (n : Nat) : pyIntHex (natToHex n) = some (n : Int) := by
  rw [pyIntHex_of_allHex (natToHex_allHex n), parseHexNat_natToHex]
  rfl

/-! ### Helper lemmas: a character that can play no role in an integer
literal makes the decode fail -/

theorem mem_dropWhile_of_not {p : Char → Bool} {c : Char} :
    ∀ {l : List Char}, c ∈ l → p c = false → c ∈ l.dropWhile p
  | a :: t, hc, hp => by
    rw [List.dropWhile_cons]
    split_ifs with ha
    · rcases List.mem_cons.mp hc with rfl | hmem
      · rw [hp] at ha; cases ha
      · exact mem_dropWhile_of_not hmem hp
    · exact hc

theorem mem_pyStripWs {s : List Char} {c : Char} (hc : c ∈ s)
    (hp : isPySpace c = false) : c ∈ pyStripWs s := by
  unfold pyStripWs
  rw [List.mem_reverse]
  exact mem_dropWhile_of_not (List.mem_reverse.mpr (mem_dropWhile_of_not hc hp)) hp

theorem mem_pyStripSign {t : List Char} {c : Char} (hc : c ∈ t)
    (hplus : c ≠ '+') (hminus : c ≠ '-') : c ∈ (pyStripSign t).2 := by
  cases t with
  | nil => cases hc
  | cons a r =>
    simp only [pyStripSign]
    split_ifs with h1 h2
    · subst h1
      rcases List.mem_cons.mp hc with rfl | h
      · exact absurd rfl hplus
      · exact h
    · subst h2
      rcases List.mem_cons.mp hc with rfl | h
      · exact absurd rfl hminus
      · exact h
    · exact hc

theorem mem_pyStrip0x {t : List Char} {c : Char} (hc : c ∈ t)
    (h0 : hexDigitVal c = none) (hx : c ≠ 'x') (hX : c ≠ 'X') :
    c ∈ pyStrip0x t := by
  have hc0 : c ≠ '0' := by rintro rfl; simp [hexDigitVal] at h0
  cases t with
  | nil => cases hc
  | cons a r =>
    cases r with
    | nil => exact hc
    | cons a1 r1 =>
      simp only [pyStrip0x]
      split_ifs with h
      · obtain ⟨ha, h1⟩ := h
        subst ha
        rcases List.mem_cons.mp hc with rfl | hmem
        · exact absurd rfl hc0
        · rcases List.mem_cons.mp hmem with rfl | hmem1
          · rcases h1 with rfl | rfl
            · exact absurd rfl hx
            · exact absurd rfl hX
          · exact hmem1
      · exact hc

/-- A payload containing a character that is neither a hex digit nor one of
the characters `int(·, 16)` can consume (whitespace, a sign, the `x`/`X` of
a base marker) makes `read_ram`'s decode fail. -/
theorem decodePayload_none_of_badChar {s : List Char} {c : Char} (hcs : c ∈ s)
    (hnone : hexDigitVal c = none) (hsp : isPySpace c = false)
    (hplus : c ≠ '+') (hminus : c ≠ '-') (hx : c ≠ 'x') (hX : c ≠ 'X') :
    decodePayload s = none := by
  have hcJ : c ∈ (chunk2 s).reverse.flatten := (payload_perm s).mem_iff.mpr hcs
  have h1 : c ∈ pyStripWs ((chunk2 s).reverse.flatten) := mem_pyStripWs hcJ hsp
  have h2 := mem_pyStripSign h1 hplus hminus
  have h3 := mem_pyStrip0x h2 hnone hx hX
  have hfail : parseHexNat
      (pyStrip0x (pyStripSign (pyStripWs ((chunk2 s).reverse.flatten))).2) = none := by
    rw [parseHexNat]
    split_ifs with he
    · rfl
    · exact parseHexCore_none _ 0 h3 hnone
  simp only [decodePayload, pyIntHex, hfail]
  rfl

/-! ### Helper lemmas about the measurement lists -/

theorem mem_available_measurements {ram : Nat → Nat → Nat} {x : String × BankEntry} :
    x ∈ available_measurements ram ↔
      x ∈ (measurements ram).filter fun ce => ce.2.meas.available ≠ 0 :=
  List.mem_mergeSort

theorem available_measurements_sorted (ram : Nat → Nat → Nat) :
    (available_measurements ram).Pairwise fun a b => a.1 ≤ b.1 := by
  have htrans : ∀ a b c : String × BankEntry,
      (decide (a.1 ≤ b.1)) → (decide (b.1 ≤ c.1)) → (decide (a.1 ≤ c.1)) := by
    intro a b c hab hbc
    simp only [decide_eq_true_eq] at *
    exact le_trans hab hbc
  have htotal : ∀ a b : String × BankEntry,
      (decide (a.1 ≤ b.1)) || (decide (b.1 ≤ a.1)) := by
    intro a b
    simpa using le_total a.1 b.1
  have h := List.sorted_mergeSort htrans htotal
    ((measurements ram).filter fun ce => ce.2.meas.available ≠ 0)
  exact h.imp fun hab => by simpa using hab

theorem banks_key_inj : ∀ cb1 ∈ MEAS_BANKS_DATA, ∀ cb2 ∈ MEAS_BANKS_DATA,
    cb1.1 = cb2.1 → cb1 = cb2 := by
  intro cb1 h1 cb2 h2 heq
  fin_cases h1 <;> fin_cases h2 <;> simp_all

theorem alarm_calls_for_channel {code : String} {e : BankEntry} {call : AlertCall}
    (h : call ∈ alarm_calls_for code e) : call.dedup_channel = some code := by
  unfold alarm_calls_for at h
  rcases List.mem_append.mp h with h | h <;> (split_ifs at h <;> simp_all)

/-! ## Claim theorems -/

/-- C1. For every response payload that is a sequence of 2-hex-digit
groups (nonempty, even length, hex characters only), the value decoded by
`read_ram` equals the little-endian interpretation: group the payload into
chunks of 2 characters left to right, reverse the chunk order, concatenate
and parse as one hexadecimal number (equivalently, the i-th chunk weighted
by `256 ^ i`); in particular payload `"2c01"` decodes to 300 and `"0a14"`
decodes to 5130. -/
theorem read_ram_decode_little_endian :
    (∀ s : List Char, s ≠ [] → s.length % 2 = 0 →
        (∀ c ∈ s, (hexDigitVal c).isSome) →
        decodePayload s = some ((leValue s : Int)))
    ∧ decodePayload ['2', 'c', '0', '1'] = some 300
    ∧ decodePayload ['0', 'a', '1', '4'] = some 5130 :=
  ⟨fun _ => decodePayload_allHex, by decide, by decide⟩

theorem read_ram_decode_little_endian_witness :
    decodePayload ['2', 'c', '0', '1'] = some ((leValue ['2', 'c', '0', '1'] : Int))
      ∧ leValue ['2', 'c', '0', '1'] = 300 :=
  ⟨read_ram_decode_little_endian.1 ['2', 'c', '0', '1'] (by decide) (by decide)
      (by decide),
   by decide⟩

/-- C2 counterexample. The claim says the address is zero-padded to
width 3; in fact `'{:3x}'.format(5)` pads with SPACES: the request for
`read_ram(5, 1)` is `"r0  5"`, not `"r0005"`. -/
theorem read_ram_request_counterexample :
    readRamRequest 5 1 = ['r', '0', ' ', ' ', '5']
      ∧ readRamRequest 5 1 ≠ ['r', '0', '0', '0', '5'] := by
  have h : readRamRequest 5 1 = ['r', '0', ' ', ' ', '5'] := by
    simp [readRamRequest, format3x, natToHex]; decide
  exact ⟨h, by rw [h]; decide⟩

/-- C2 amended. For every address and size with `1 ≤ size ≤ 4`, the
request is the literal `r`, a single hex digit equal to `size - 1`, then
the address as lowercase hexadecimal right-aligned in a field of width 3,
SPACE-padded when shorter than 3 digits and not truncated when wider; the
hex rendering is exact (parsing it back yields the address). -/
theorem read_ram_request_amended (address size : Nat)
    (h1 : 1 ≤ size) (h4 : size ≤ 4) :
    readRamRequest address size =
      'r' :: Nat.digitChar (size - 1) ::
        (List.replicate (3 - (natToHex address).length) ' ' ++ natToHex address)
    ∧ hexDigitVal (Nat.digitChar (size - 1)) = some (size - 1)
    ∧ (∀ c ∈ natToHex address, (hexDigitVal c).isSome)
    ∧ pyIntHex (natToHex address) = some (address : Int)
    ∧ 1 ≤ (natToHex address).length := by
  refine ⟨?_, hexDigitVal_digitChar _ (by omega), natToHex_allHex address,
    pyIntHex_natToHex address, ?_⟩
  · interval_cases size <;> rfl
  · by_cases h0 : address = 0
    · subst h0; decide
    · have hne : Nat.digits 16 address ≠ [] := Nat.digits_ne_nil_iff_ne_zero.mpr h0
      simpa [natToHex, h0, Nat.one_le_iff_ne_zero] using hne

theorem read_ram_request_amended_witness :
    readRamRequest 300 2 =
      'r' :: Nat.digitChar (2 - 1) ::
        (List.replicate (3 - (natToHex 300).length) ' ' ++ natToHex 300)
    ∧ hexDigitVal (Nat.digitChar (2 - 1)) = some (2 - 1)
    ∧ (∀ c ∈ natToHex 300, (hexDigitVal c).isSome)
    ∧ pyIntHex (natToHex 300) = some ((300 : Nat) : Int)
    ∧ 1 ≤ (natToHex 300).length :=
  read_ram_request_amended 300 2 (by decide) (by decide)

/-- C3 counterexample. The claim says `read_ram` fails whenever the
payload length is not a positive even number; in fact the odd-length
all-hex payload `"abc"` decodes without error (chunks `["ab","c"]`,
reversed and joined to `"cab"`, i.e. 3243). -/
theorem read_ram_error_counterexample :
    ['a', 'b', 'c'].length % 2 = 1 ∧ decodePayload ['a', 'b', 'c'] = some 3243 :=
  ⟨by decide, by decide⟩

/-- C3 amended. `read_ram`'s decode fails on the empty payload;
it succeeds on every nonempty payload of hex digits regardless of parity
(odd lengths included, contrary to the claim); and it fails whenever the
payload contains a character that is not a hex digit and that `int(·, 16)`
cannot consume as whitespace, sign or base marker. -/
theorem read_ram_error_amended :
    (∀ s : List Char, s ≠ [] → (∀ c ∈ s, (hexDigitVal c).isSome) →
        (decodePayload s).isSome)
    ∧ decodePayload [] = none
    ∧ (∀ (s : List Char) (c : Char), c ∈ s → hexDigitVal c = none →
        isPySpace c = false → c ≠ '+' → c ≠ '-' → c ≠ 'x' → c ≠ 'X' →
        decodePayload s = none) := by
  refine ⟨?_, by decide, fun s c hcs hn hsp hp hm hx hX =>
    decodePayload_none_of_badChar hcs hn hsp hp hm hx hX⟩
  intro s hne hhex
  have hperm := payload_perm s
  have hhexJ : ∀ c ∈ (chunk2 s).reverse.flatten, (hexDigitVal c).isSome :=
    fun c hc => hhex c (hperm.mem_iff.mp hc)
  have hneJ : (chunk2 s).reverse.flatten ≠ [] := by
    intro h0
    apply hne
    have hlen := hperm.length_eq
    rw [h0] at hlen
    exact List.length_eq_zero.mp hlen.symm
  rw [decodePayload, pyIntHex_of_allHex hhexJ, parseHexNat, if_neg hneJ]
  obtain ⟨m, hm⟩ := Option.isSome_iff_exists.mp
    (parseHexCore_isSome ((chunk2 s).reverse.flatten) 0 hhexJ)
  rw [hm]
  rfl

theorem read_ram_error_amended_witness : (decodePayload ['a']).isSome :=
  read_ram_error_amended.1 ['a'] (by decide) (by decide)

/-- C10. The ten field descriptors of `MEAS_FIELD_DATA` tile the
17-byte bank structure exactly: the sizes sum to `MEAS_STRUCT_SIZE`, the
`[offset, offset+size)` intervals are pairwise disjoint, every field read
of every bank index `0..7` stays within that bank's 17-byte region, and no
two distinct banks' field address ranges overlap. -/
theorem meas_fields_tile :
    ((MEAS_FIELD_DATA.map fun nf => nf.2.size).sum = MEAS_STRUCT_SIZE)
    ∧ MEAS_FIELD_DATA.Pairwise (fun a b =>
        a.2.offset + a.2.size ≤ b.2.offset ∨ b.2.offset + b.2.size ≤ a.2.offset)
    ∧ (∀ nf ∈ MEAS_FIELD_DATA, nf.2.offset + nf.2.size ≤ MEAS_STRUCT_SIZE)
    ∧ (∀ b, b < 8 → ∀ nf ∈ MEAS_FIELD_DATA,
        MEAS_BASE + b * MEAS_STRUCT_SIZE ≤ field_addr b nf.2 ∧
        field_addr b nf.2 + nf.2.size ≤ MEAS_BASE + (b + 1) * MEAS_STRUCT_SIZE)
    ∧ (∀ b1, b1 < 8 → ∀ b2, b2 < 8 → b1 ≠ b2 → ∀ nf1 ∈ MEAS_FIELD_DATA,
        ∀ nf2 ∈ MEAS_FIELD_DATA,
        field_addr b1 nf1.2 + nf1.2.size ≤ field_addr b2 nf2.2 ∨
        field_addr b2 nf2.2 + nf2.2.size ≤ field_addr b1 nf1.2) := by
  decide

/-- C4. For every bank index and divisor, `read_meas` stores, under
each field's name, the value read at absolute address
`MEAS_BASE + bank * MEAS_STRUCT_SIZE + offset` with the field's size —
divided by the divisor with real-valued division when the field is scaled,
raw otherwise (`flags`, `type`) — and the record's `available` entry is
truthy exactly when bit 0 of the `flags` value is set. -/
theorem read_meas_fields (ram : Nat → Nat → Nat) (bank divisor : Nat) :
    (∀ nf ∈ MEAS_FIELD_DATA,
        (read_meas ram bank divisor).vals.lookup nf.1 =
          some (if nf.2.divisive
            then (ram (MEAS_BASE + bank * MEAS_STRUCT_SIZE + nf.2.offset) nf.2.size : ℚ)
              / (divisor : ℚ)
            else (ram (MEAS_BASE + bank * MEAS_STRUCT_SIZE + nf.2.offset) nf.2.size : ℚ)))
    ∧ ((read_meas ram bank divisor).available ≠ 0 ↔
        ram (MEAS_BASE + bank * MEAS_STRUCT_SIZE) 1 % 2 = 1) := by
  constructor
  · intro nf hmem
    fin_cases hmem <;>
      simp [read_meas, MEAS_FIELD_DATA, List.lookup, field_addr]
  · simp only [read_meas, field_addr, Nat.and_one_is_mod, Nat.add_zero]
    omega

theorem read_meas_fields_witness :
    (("measured", (⟨2, 2, true, "Measured"⟩ : FieldSpec)) ∈ MEAS_FIELD_DATA)
    ∧ (read_meas (fun a s => a + s) 0 10).vals.lookup "measured" =
        some ((((MEAS_BASE + 0 * MEAS_STRUCT_SIZE + 2) + 2 : Nat) : ℚ) / (10 : ℚ)) :=
  ⟨by decide,
   (read_meas_fields (fun a s => a + s) 0 10).1
     ("measured", ⟨2, 2, true, "Measured"⟩) (by decide)⟩

/-- C5. After `update_all_measurements`, `available_measurements`
contains exactly the bank records whose `available` entry is truthy, each
paired with its bank code and carrying that bank's `read_meas` record,
ordered by bank code ascending; and whenever 3 of the 8 banks are
unavailable it has exactly 5 entries. -/
theorem available_measurements_spec (ram : Nat → Nat → Nat) :
    (∀ code e, (code, e) ∈ available_measurements ram ↔
        ((∃ cb ∈ MEAS_BANKS_DATA, code = cb.1 ∧ e = mkBankEntry ram cb)
          ∧ e.meas.available ≠ 0))
    ∧ (available_measurements ram).Pairwise (fun a b => a.1 ≤ b.1)
    ∧ (((measurements ram).filter fun ce => ce.2.meas.available = 0).length = 3 →
        (available_measurements ram).length = 5) := by
  refine ⟨?_, available_measurements_sorted ram, ?_⟩
  · intro code e
    rw [mem_available_measurements, List.mem_filter]
    simp only [measurements, List.mem_map, decide_eq_true_eq]
    constructor
    · rintro ⟨⟨cb, hcb, heq⟩, hav⟩
      rw [Prod.mk.injEq] at heq
      obtain ⟨rfl, rfl⟩ := heq
      exact ⟨⟨cb, hcb, rfl, rfl⟩, hav⟩
    · rintro ⟨⟨cb, hcb, rfl, rfl⟩, hav⟩
      exact ⟨⟨cb, hcb, rfl⟩, hav⟩
  · intro h3
    have hsplit : ∀ l : List (String × BankEntry),
        (l.filter fun ce => ce.2.meas.available ≠ 0).length
          + (l.filter fun ce => ce.2.meas.available = 0).length = l.length := by
      intro l
      induction l with
      | nil => rfl
      | cons x t ih =>
        by_cases hx : x.2.meas.available = 0
        · rw [List.filter_cons, List.filter_cons, if_neg (by simp [hx]),
            if_pos (by simp [hx])]
          simp only [List.length_cons]
          omega
        · rw [List.filter_cons, List.filter_cons, if_pos (by simp [hx]),
            if_neg (by simp [hx])]
          simp only [List.length_cons]
          omega
    have htot : (measurements ram).length = 8 := by
      simp [measurements, MEAS_BANKS_DATA]
    have hlen : (available_measurements ram).length =
        ((measurements ram).filter fun ce => ce.2.meas.available ≠ 0).length := by
      simp [available_measurements]
    have := hsplit (measurements ram)
    omega

theorem available_measurements_spec_witness :
    (((measurements fun a _ => if a = 1881 ∨ a = 1932 ∨ a = 1983 then 0 else 1).filter
        fun ce => ce.2.meas.available = 0).length = 3)
    ∧ (available_measurements fun a _ =>
        if a = 1881 ∨ a = 1932 ∨ a = 1983 then 0 else 1).length = 5 :=
  ⟨by decide,
   (available_measurements_spec fun a _ =>
      if a = 1881 ∨ a = 1932 ∨ a = 1983 then 0 else 1).2.2 (by decide)⟩

/-- C6. `check_dedup_suppression` returns `false` for an empty/absent
channel, `false` when no suppression window is configured, `false` when the
channel's stored timestamp file is missing or unparsable, and otherwise
returns `true` iff `now` minus the stored last-alert timestamp is strictly
less than the configured window in hours. -/
theorem check_dedup_suppression_spec (cfg : Config) (store : Store)
    (channel : Option String) (now : Timestamp) :
    (¬truthy channel → check_dedup_suppression cfg store channel now = false)
    ∧ (cfg.alert_dedup_suppression_hours = none →
        check_dedup_suppression cfg store channel now = false)
    ∧ (∀ ch, channel = some ch → store ch = none →
        check_dedup_suppression cfg store channel now = false)
    ∧ (∀ ch content, channel = some ch → store ch = some content →
        parseTimestampFile content = none →
        check_dedup_suppression cfg store channel now = false)
    ∧ (∀ ch hours content last, channel = some ch → truthy channel →
        cfg.alert_dedup_suppression_hours = some hours →
        store ch = some content → parseTimestampFile content = some last →
        (check_dedup_suppression cfg store channel now = true ↔
          now.toQ - last.toQ < hours * 3600)) := by
  refine ⟨?_, ?_, ?_, ?_, ?_⟩
  · intro h
    simp [check_dedup_suppression, h]
  · intro h
    unfold check_dedup_suppression
    rw [h]
    split_ifs <;> rfl
  · rintro ch rfl hstore
    by_cases ht : truthy (some ch)
    · unfold check_dedup_suppression
      rw [if_neg fun hc => hc ht]
      cases cfg.alert_dedup_suppression_hours with
      | none => rfl
      | some hours => simp [hstore]
    · simp [check_dedup_suppression, ht]
  · rintro ch content rfl hstore hparse
    by_cases ht : truthy (some ch)
    · unfold check_dedup_suppression
      rw [if_neg fun hc => hc ht]
      cases cfg.alert_dedup_suppression_hours with
      | none => rfl
      | some hours => simp [hstore, hparse]
    · simp [check_dedup_suppression, ht]
  · rintro ch hours content last rfl htr hcfg hstore hparse
    unfold check_dedup_suppression
    rw [if_neg (by simpa using htr), hcfg]
    simp [hstore, hparse]

theorem check_dedup_suppression_spec_witness :
    check_dedup_suppression
        (⟨some 1, none, 465, none, none, none, none⟩ : Config)
        (fun c => if c = "temp1" then some (.stamp ⟨1000, some 500⟩) else none)
        (some "temp1") ⟨1060, 0⟩ = true
      ↔ (⟨1060, 0⟩ : Timestamp).toQ - (⟨1000, 500⟩ : Timestamp).toQ < 1 * 3600 :=
  (check_dedup_suppression_spec _ _ _ _).2.2.2.2 "temp1" 1
    (.stamp ⟨1000, some 500⟩) ⟨1000, 500⟩ rfl (by decide) rfl (by decide) rfl

/-- C7 (code bug). The dedup timestamp does NOT round-trip for every
instant: `save_dedup_suppression_state` writes `datetime.now().isoformat()`,
which omits the fractional-seconds field when `microsecond == 0`, while
`check_dedup_suppression` parses with the format `"%Y-%m-%dT%H:%M:%S.%f"`
that requires it.  So for an alert recorded at such an instant the stored
value is not a microsecond-precision timestamp, the read back fails, and a
repeat alert 60 seconds later inside a 1-hour window is NOT suppressed.
The round-trip does hold whenever `microsecond != 0`, confirming the
writer/reader mismatch is a slip. -/
theorem dedup_roundtrip_zero_micro_bug :
    (save_dedup_suppression_state (fun _ => none) (some "temp1") ⟨1000, 0⟩) "temp1"
        = some (.stamp ⟨1000, none⟩)
    ∧ check_dedup_suppression (⟨some 1, none, 465, none, none, none, none⟩ : Config)
        (save_dedup_suppression_state (fun _ => none) (some "temp1") ⟨1000, 0⟩)
        (some "temp1") ⟨1060, 0⟩ = false
    ∧ (⟨1060, 0⟩ : Timestamp).toQ - (⟨1000, 0⟩ : Timestamp).toQ < 1 * 3600
    ∧ (∀ t : Timestamp, t.usec ≠ 0 → strptimeIsoMicro (isoformat t) = some t) := by
  refine ⟨by decide, by decide, by norm_num [Timestamp.toQ], ?_⟩
  intro t ht
  simp [isoformat, strptimeIsoMicro, ht]

theorem dedup_roundtrip_zero_micro_bug_witness :
    strptimeIsoMicro (isoformat ⟨1000, 250000⟩) = some ⟨1000, 250000⟩ :=
  dedup_roundtrip_zero_micro_bug.2.2.2 ⟨1000, 250000⟩ (by decide)

/-- C8. `send_alerts`: when the dedup check suppresses, the call makes
no delivery attempt and leaves the dedup store unchanged; when it does not,
the email path is invoked with the summary and the details (possibly with
the informational dedup note appended), the SMS path is invoked with
`brief` (defaulted to `summary` when absent), and the dedup store is
written via `save_dedup_suppression_state` — all independently of whether
the SMTP interaction fails, whose exception is swallowed. -/
theorem send_alerts_spec (cfg : Config) (store : Store) (now : Timestamp)
    (summary details : String) (brief : Option String)
    (channel : Option String) (smtpFails : Bool) :
    (check_dedup_suppression cfg store channel now = true →
        send_alerts cfg store now summary details brief channel smtpFails
          = ([], store))
    ∧ (check_dedup_suppression cfg store channel now = false →
        (send_alerts cfg store now summary details brief channel smtpFails).2
            = save_dedup_suppression_state store channel now
        ∧ (∃ details2,
            Event.emailAlertCall summary details2
              ∈ (send_alerts cfg store now summary details brief channel smtpFails).1
            ∧ (details2 = details ∨ ∃ hours,
                cfg.alert_dedup_suppression_hours = some hours
                  ∧ details2 = details ++ dedupNote hours))
        ∧ Event.smsAlertCall (if ¬truthy brief then summary else brief.getD "")
            ∈ (send_alerts cfg store now summary details brief channel smtpFails).1
        ∧ (¬truthy brief → Event.smsAlertCall summary
            ∈ (send_alerts cfg store now summary details brief channel smtpFails).1)) := by
  constructor
  · intro h
    simp [send_alerts, h]
  · intro h
    have hsms : Event.smsAlertCall (if ¬truthy brief then summary else brief.getD "")
        ∈ (send_alerts cfg store now summary details brief channel smtpFails).1 := by
      simp [send_alerts, h, send_sms_alert]
    refine ⟨by simp [send_alerts, h], ?_, hsms, ?_⟩
    · refine ⟨if truthy channel then
          (match cfg.alert_dedup_suppression_hours with
            | some hours => details ++ dedupNote hours
            | none => details)
          else details, ?_, ?_⟩
      · simp [send_alerts, h]
      · by_cases ht : truthy channel
        · cases hh : cfg.alert_dedup_suppression_hours with
          | none => exact Or.inl (by simp [ht])
          | some hours => exact Or.inr ⟨hours, rfl, by simp [ht]⟩
        · exact Or.inl (by simp [ht])
    · intro hb
      rw [if_pos hb] at hsms
      exact hsms

theorem send_alerts_spec_witness :
    Event.smsAlertCall "s"
      ∈ (send_alerts (⟨none, none, 465, none, none, none, none⟩ : Config)
          (fun _ => none) ⟨0, 0⟩ "s" "d" none (some "x") true).1 :=
  ((send_alerts_spec (⟨none, none, 465, none, none, none, none⟩ : Config)
      (fun _ => none) ⟨0, 0⟩ "s" "d" none (some "x") true).2
    (by decide)).2.2.2 (by decide)

/-- C9. `check_alarms` considers every available bank record and,
independently per record, invokes `send_alerts` with a high alarm on
channel = bank code when measured > alarm_high and with a low alarm on the
same channel when measured < alarm_low; a record crossing both thresholds
yields both (distinct) calls, and unavailable banks yield no call on their
channel. -/
theorem check_alarms_spec (ram : Nat → Nat → Nat) :
    ∀ cb ∈ MEAS_BANKS_DATA,
      ((mkBankEntry ram cb).meas.available ≠ 0 →
        (mkBankEntry ram cb).meas.get "measured"
            > (mkBankEntry ram cb).meas.get "alarm_high" →
        (⟨.high, some cb.1, (mkBankEntry ram cb).name,
            (mkBankEntry ram cb).meas.get "measured",
            (mkBankEntry ram cb).meas.get "alarm_high"⟩ : AlertCall)
          ∈ check_alarms ram)
      ∧ ((mkBankEntry ram cb).meas.available ≠ 0 →
          (mkBankEntry ram cb).meas.get "measured"
              < (mkBankEntry ram cb).meas.get "alarm_low" →
          (⟨.low, some cb.1, (mkBankEntry ram cb).name,
              (mkBankEntry ram cb).meas.get "measured",
              (mkBankEntry ram cb).meas.get "alarm_low"⟩ : AlertCall)
            ∈ check_alarms ram)
      ∧ ((mkBankEntry ram cb).meas.available = 0 →
          ∀ call ∈ check_alarms ram, call.dedup_channel ≠ some cb.1)
      ∧ (∀ nm m t t', (⟨.high, some cb.1, nm, m, t⟩ : AlertCall)
            ≠ ⟨.low, some cb.1, nm, m, t'⟩) := by
  intro cb hcb
  refine ⟨?_, ?_, ?_, by intro nm m t t'; simp⟩
  · intro hav hgt
    apply List.mem_flatMap.mpr
    refine ⟨(cb.1, mkBankEntry ram cb), ?_, ?_⟩
    · apply mem_available_measurements.mpr
      apply List.mem_filter.mpr
      refine ⟨?_, by simpa using hav⟩
      simp only [measurements, List.mem_map]
      exact ⟨cb, hcb, rfl⟩
    · simp [alarm_calls_for, hgt]
  · intro hav hlt
    apply List.mem_flatMap.mpr
    refine ⟨(cb.1, mkBankEntry ram cb), ?_, ?_⟩
    · apply mem_available_measurements.mpr
      apply List.mem_filter.mpr
      refine ⟨?_, by simpa using hav⟩
      simp only [measurements, List.mem_map]
      exact ⟨cb, hcb, rfl⟩
    · simp [alarm_calls_for, hlt]
  · intro hav call hcall hch
    obtain ⟨ce, hce, hc⟩ := List.mem_flatMap.mp hcall
    have hchan := alarm_calls_for_channel hc
    obtain ⟨hmm, hdec⟩ := List.mem_filter.mp (mem_available_measurements.mp hce)
    simp only [measurements, List.mem_map] at hmm
    obtain ⟨cb', hcb', rfl⟩ := hmm
    rw [hchan] at hch
    have hkey : cb'.1 = cb.1 := by simpa using hch
    have hcbeq : cb' = cb := banks_key_inj cb' hcb' cb hcb hkey
    subst hcbeq
    simp only [decide_eq_true_eq] at hdec
    exact hdec hav

theorem check_alarms_spec_witness :
    (("temp1", (⟨0, "Temperature 1", "C", 10⟩ : BankSpec)) ∈ MEAS_BANKS_DATA)
    ∧ (⟨.high, some "temp1",
        (mkBankEntry (fun a _ => if a = 1866 then 300 else if a = 1868 then 280 else 1)
          ("temp1", ⟨0, "Temperature 1", "C", 10⟩)).name,
        (mkBankEntry (fun a _ => if a = 1866 then 300 else if a = 1868 then 280 else 1)
          ("temp1", ⟨0, "Temperature 1", "C", 10⟩)).meas.get "measured",
        (mkBankEntry (fun a _ => if a = 1866 then 300 else if a = 1868 then 280 else 1)
          ("temp1", ⟨0, "Temperature 1", "C", 10⟩)).meas.get "alarm_high"⟩ : AlertCall)
      ∈ check_alarms (fun a _ => if a = 1866 then 300 else if a = 1868 then 280 else 1) :=
  ⟨by decide,
   ((check_alarms_spec (fun a _ => if a = 1866 then 300 else if a = 1868 then 280 else 1)
        ("temp1", ⟨0, "Temperature 1", "C", 10⟩) (by decide)).1
      (by decide)
      (by simp [mkBankEntry, read_meas, MeasRecord.get, MEAS_FIELD_DATA,
            List.lookup, field_addr, MEAS_BASE, MEAS_STRUCT_SIZE]
          norm_num))⟩

theorem meas_fields_tile_witness :
    field_addr 0 (("alarm_low", ⟨15, 2, true, "Alarm Low"⟩) : String × FieldSpec).2
        + (("alarm_low", ⟨15, 2, true, "Alarm Low"⟩) : String × FieldSpec).2.size
        ≤ field_addr 1 (("flags", ⟨0, 1, false, "Flags"⟩) : String × FieldSpec).2
    ∨ field_addr 1 (("flags", ⟨0, 1, false, "Flags"⟩) : String × FieldSpec).2
        + (("flags", ⟨0, 1, false, "Flags"⟩) : String × FieldSpec).2.size
        ≤ field_addr 0 (("alarm_low", ⟨15, 2, true, "Alarm Low"⟩) : String × FieldSpec).2 :=
  meas_fields_tile.2.2.2.2 0 (by decide) 1 (by decide) (by decide)
    ("alarm_low", ⟨15, 2, true, "Alarm Low"⟩) (by decide)
    ("flags", ⟨0, 1, false, "Flags"⟩) (by decide)

end Elemac
